import Mathlib

/-!
Shallow embedding of the mpflash flash-orchestration core: the flash
orchestrator (`mpflash/flash/__init__.py`), the worklist builder and firmware
selection (`mpflash/flash/worklist.py`), the firmware catalog lookup
(`mpflash/downloaded.py`), the board registry resolution
(`mpflash/mpboard_id/board_id.py`), the device introspection consumer
(`mpflash/mpremoteboard/__init__.py`) and the pyOCD fuzzy target matcher
(`mpflash/flash/pyocd_core.py`), together with theorems settling the
specification claims about them.

Machine-level conventions: Python strings are Lean `String`s (in Lean 4.14 a
`String` wraps a `List Char`, so all operations are kernel-reducible); Python
exceptions are `Except PyErr`; the SQL-backed catalog and registry are lists
of rows queried by list filtering; external effects (the actual flash
transports, the filesystem, logging) are oracle parameters.
-/

namespace MpFlash

/-- Equality of embedded Python results is decidable, so that concrete
witnesses can be checked by evaluation. -/
instance {ε α : Type} [DecidableEq ε] [DecidableEq α] : DecidableEq (Except ε α)
  | .error a, .error b =>
    if h : a = b then .isTrue (by rw [h]) else .isFalse (by intro hh; cases hh; exact h rfl)
  | .error _, .ok _ => .isFalse (by intro h; cases h)
  | .ok _, .error _ => .isFalse (by intro h; cases h)
  | .ok a, .ok b =>
    if h : a = b then .isTrue (by rw [h]) else .isFalse (by intro hh; cases hh; exact h rfl)

/-- Python exception values that the embedded code can raise. -/
inductive PyErr where
  /-- `mpflash.errors.MPFlashError` -/
  | mpflashError (msg : String)
  /-- Python `TypeError` (e.g. an unexpected keyword argument) -/
  | typeError (msg : String)
  /-- Python `KeyError` (missing dictionary key) -/
  | keyError (key : String)
  deriving Repr, DecidableEq

/-- Boolean substring test: `strContains s pat` is Python's `pat in s`. -/
def listInfixCheck (pat : List Char) : List Char → Bool
  | [] => pat.isEmpty
  | c :: t => pat.isPrefixOf (c :: t) || listInfixCheck pat t

/-- Python's `pat in s` on strings. -/
def strContains (s pat : String) : Bool :=
  listInfixCheck pat.data s.data

/-- Python's `s[n:]` (drop the first `n` characters). -/
def strDrop (s : String) (n : Nat) : String :=
  String.mk (s.data.drop n)

/-- Python's `s[:n]` (take the first `n` characters). -/
def strTake (s : String) (n : Nat) : String :=
  String.mk (s.data.take n)

/-- Python's `s.lower()` (ASCII lowering, which is all the sources need). -/
def strLower (s : String) : String :=
  String.mk (s.data.map Char.toLower)

/-- Python's `s.upper()`. -/
def strUpper (s : String) : String :=
  String.mk (s.data.map Char.toUpper)

/-- Python's `s.startswith(pat)`. -/
def strStartsWith (s pat : String) : Bool :=
  pat.data.isPrefixOf s.data

/-- Python's `s.endswith(pat)`. -/
def strEndsWith (s pat : String) : Bool :=
  pat.data.reverse.isPrefixOf s.data.reverse

/-- Python's `s.strip()`: remove leading and trailing whitespace. -/
def pyStrip (s : String) : String :=
  String.mk (((s.data.dropWhile Char.isWhitespace).reverse.dropWhile Char.isWhitespace).reverse)

/-- Fuel-indexed engine of `pyReplace`: replace each leftmost non-overlapping
occurrence of `pat` (non-empty at every call site). The fuel starts at the
length of the scanned list and every step consumes at least one character,
so the `0` case is never reached from `pyReplace`. -/
def replaceFuel (pat rep : List Char) : Nat → List Char → List Char
  | 0, l => l
  | _ + 1, [] => []
  | n + 1, c :: t =>
    if pat.isPrefixOf (c :: t) then
      rep ++ replaceFuel pat rep n ((c :: t).drop pat.length)
    else
      c :: replaceFuel pat rep n t

/-- Python's `s.replace(pat, rep)` for a non-empty `pat`: replace every
non-overlapping occurrence, scanning left to right (all call sites in the
embedded sources pass non-empty literal patterns). -/
def pyReplace (s pat rep : String) : String :=
  if pat = "" then s else String.mk (replaceFuel pat.data rep.data s.data.length s.data)

/-- Index of the last occurrence of `pat` in `l`, if any
(list form of Python's `s.rfind(pat)`). -/
def listRFind (pat : List Char) : List Char → Option Nat
  | [] => if pat.isEmpty then some 0 else none
  | c :: t =>
    match listRFind pat t with
    | some i => some (i + 1)
    | none => if pat.isPrefixOf (c :: t) then some 0 else none

/-- Python's `s.rfind(pat)`, as `none` instead of `-1` when absent. -/
def strRFind (s pat : String) : Option Nat :=
  listRFind pat.data s.data

/-- `pathlib.Path(s).suffix`: the extension of the final path component.
CPython: `i = name.rfind('.')`; the suffix is `name[i:]` when `0 < i < len(name) - 1`,
else the empty string. -/
def pathSuffix (s : String) : String :=
  let name := String.mk ((s.data.reverse.takeWhile (fun c => c ≠ '/')).reverse)
  match strRFind name "." with
  | some i => if 0 < i ∧ i < name.length - 1 then strDrop name i else ""
  | none => ""

/-- The flash methods of `mpflash.common.FlashMethod`
(`auto`, `serial`, `uf2`, `dfu`, `esptool`, `pyocd`). -/
inductive FlashMethod where
  | AUTO
  | SERIAL
  | UF2
  | DFU
  | ESPTOOL
  | PYOCD
  deriving Repr, DecidableEq

/-- A row of the `firmwares` table (`mpflash/db/models.py`, class `Firmware`). -/
structure Firmware where
  board_id : String
  version : String
  port : String := ""
  description : String := ""
  firmware_file : String
  source : String := ""
  build : Nat := 0
  custom : Bool := false
  deriving Repr, DecidableEq

/-- The device record (`mpflash.mpremoteboard.MPRemoteBoard`), fields as
initialised by `__init__` and populated by `get_mcu_info`. -/
structure MPRemoteBoard where
  serialport : String := ""
  family : String := "unknown"
  description : String := ""
  version : String := ""
  port : String := ""
  board : String := ""
  cpu : String := ""
  arch : String := ""
  mpy : String := ""
  build : String := ""
  deriving Repr, DecidableEq

/-- A worklist item: `FlashItem = Tuple[MPRemoteBoard, Optional[Firmware]]`. -/
def FlashItem := MPRemoteBoard × Option Firmware

/-- `WorkList = List[FlashItem]`. -/
def WorkList := List FlashItem

/-- Outcome of one `flash_mcu` call, seen from the orchestrator loop:
`flash_mcu` either raises `MPFlashError` (every internal exception is
converted to one), or returns a truthy updated device, or returns a falsy
value. -/
inductive FlashOutcome where
  /-- `flash_mcu` raised `MPFlashError`. -/
  | raised (msg : String)
  /-- `flash_mcu` returned a truthy updated device. -/
  | done (d : MPRemoteBoard)
  /-- `flash_mcu` returned a falsy value (flash failed without an exception). -/
  | failed
  deriving Repr, DecidableEq

/-- The orchestrator loop `flash_list` (`mpflash/flash/__init__.py` lines
22-60). `attempt` is the `flash_mcu` oracle, `fileExists` the
`Path.exists` oracle, `folder` is `config.firmware_folder`; the
`board_info.toml` bookkeeping for custom firmware only performs device-side
writes and does not change the returned list, so it is not modelled. -/
def flash_list (attempt : MPRemoteBoard → String → FlashOutcome)
    (fileExists : String → Bool) (folder : String) :
    List (MPRemoteBoard × Option Firmware) → List MPRemoteBoard
  | [] => []
  | (_, none) :: rest => flash_list attempt fileExists folder rest
  | (mcu, some fw) :: rest =>
    let fw_file := folder ++ "/" ++ fw.firmware_file
    if fileExists fw_file then
      match attempt mcu fw_file with
      | .done d => d :: flash_list attempt fileExists folder rest
      | .raised _ => flash_list attempt fileExists folder rest
      | .failed => flash_list attempt fileExists folder rest
    else
      flash_list attempt fileExists folder rest

/-- The per-item success extractor that the specification describes: an item
contributes a flashed device exactly when it has a firmware, the artifact
exists on disk, and the flash attempt returns a device. -/
def flashItemResult (attempt : MPRemoteBoard → String → FlashOutcome)
    (fileExists : String → Bool) (folder : String)
    (item : MPRemoteBoard × Option Firmware) : Option MPRemoteBoard :=
  match item.2 with
  | none => none
  | some fw =>
    let fw_file := folder ++ "/" ++ fw.firmware_file
    if fileExists fw_file then
      match attempt item.1 fw_file with
      | .done d => some d
      | _ => none
    else none

/-- C1: `flash_list` processes the worklist in list order and returns exactly
the successfully flashed devices; items with a missing firmware or a missing
artifact file are skipped, and an item whose flash attempt raises
`MPFlashError` is skipped while all remaining items are still processed. -/
theorem flash_list_eq_filterMap
    (attempt : MPRemoteBoard → String → FlashOutcome)
    (fileExists : String → Bool) (folder : String)
    (todo : List (MPRemoteBoard × Option Firmware)) :
    flash_list attempt fileExists folder todo =
      todo.filterMap (flashItemResult attempt fileExists folder) := by
  induction todo with
  | nil => rfl
  | cons item rest ih =>
    obtain ⟨mcu, fw?⟩ := item
    cases fw? with
    | none => simpa [flash_list, flashItemResult] using ih
    | some fw =>
      by_cases h : fileExists (folder ++ "/" ++ fw.firmware_file) = true
      · cases ho : attempt mcu (folder ++ "/" ++ fw.firmware_file) <;>
          simp [flash_list, flashItemResult, h, ho, ih]
      · simp only [Bool.not_eq_true] at h
        simp [flash_list, flashItemResult, h, ih]

/-- Modelled from the spec: the UF2-capable port set (`UF2_PORTS` lives in
`mpflash/common.py`, which is not under the provided sources; the spec names
RP2040 and SAMD boards as the UF2 mass-storage targets). The claims proved
below hold for any contents of this list. -/
def UF2_PORTS : List String := ["rp2", "samd"]

/-- Error message of `_select_serial_method` for an unflashable port
(paraphrased without punctuation that the embedding cannot carry). -/
def serialMethodErrMsg (mcu : MPRemoteBoard) : String :=
  "Do not know how to flash " ++ mcu.port ++ "-" ++ mcu.board ++ " on " ++ mcu.serialport

/-- `_select_serial_method` (`mpflash/flash/__init__.py` lines 182-191). -/
def _select_serial_method (mcu : MPRemoteBoard) (fw_file : String) : Except PyErr FlashMethod :=
  if mcu.port ∈ UF2_PORTS ∧ pathSuffix fw_file = ".uf2" then .ok .UF2
  else if mcu.port = "stm32" then .ok .DFU
  else if mcu.port ∈ (["esp32", "esp8266"] : List String) then .ok .ESPTOOL
  else .error (.mpflashError (serialMethodErrMsg mcu))

/-- `_auto_select_flash_method` (`mpflash/flash/__init__.py` lines 158-179):
platform-specific serial methods first, then fall back to
`_select_serial_method`. -/
def _auto_select_flash_method (mcu : MPRemoteBoard) (fw_file : String) : Except PyErr FlashMethod :=
  if mcu.port ∈ UF2_PORTS ∧ pathSuffix fw_file = ".uf2" then .ok .UF2
  else if mcu.port = "stm32" then .ok .DFU
  else if mcu.port ∈ (["esp32", "esp8266"] : List String) then .ok .ESPTOOL
  else _select_serial_method mcu fw_file

/-- C2: auto-selection returns UF2 exactly when the port is UF2-capable and
the artifact suffix is `.uf2`, otherwise DFU for `stm32`, otherwise ESP-tool
for `esp32`/`esp8266`, and otherwise fails with an error; the debug-probe
(pyocd) method is never auto-selected, for any device or firmware file. -/
theorem auto_select_flash_method_spec (mcu : MPRemoteBoard) (f : String) :
    (_auto_select_flash_method mcu f =
      if mcu.port ∈ UF2_PORTS ∧ pathSuffix f = ".uf2" then .ok .UF2
      else if mcu.port = "stm32" then .ok .DFU
      else if mcu.port = "esp32" ∨ mcu.port = "esp8266" then .ok .ESPTOOL
      else .error (.mpflashError (serialMethodErrMsg mcu)))
    ∧ _auto_select_flash_method mcu f ≠ .ok .PYOCD := by
  have hmem : (mcu.port ∈ (["esp32", "esp8266"] : List String)) ↔
      (mcu.port = "esp32" ∨ mcu.port = "esp8266") := by simp
  have heq : _auto_select_flash_method mcu f =
      if mcu.port ∈ UF2_PORTS ∧ pathSuffix f = ".uf2" then .ok .UF2
      else if mcu.port = "stm32" then .ok .DFU
      else if mcu.port = "esp32" ∨ mcu.port = "esp8266" then .ok .ESPTOOL
      else .error (.mpflashError (serialMethodErrMsg mcu)) := by
    simp only [_auto_select_flash_method, _select_serial_method]
    by_cases h1 : mcu.port ∈ UF2_PORTS ∧ pathSuffix f = ".uf2"
    · simp [h1]
    · by_cases h2 : mcu.port = "stm32"
      · simp [h1, h2]
      · by_cases h3 : mcu.port = "esp32" ∨ mcu.port = "esp8266"
        · simp [h1, h2, hmem, h3]
        · simp [h1, h2, hmem, h3]
  refine ⟨heq, ?_⟩
  rw [heq]
  split_ifs <;> simp

/-- Closed instance of the C2 theorem: an `rp2` device with a `.uf2`
artifact auto-selects UF2, and pyocd is not selected for it. -/
theorem auto_select_flash_method_spec_witness :
    _auto_select_flash_method { port := "rp2" } "firmware/RPI_PICO-v1.22.2.uf2" = .ok .UF2 ∧
    _auto_select_flash_method { port := "rp2" } "firmware/RPI_PICO-v1.22.2.uf2" ≠ .ok .PYOCD := by
  have h := auto_select_flash_method_spec { port := "rp2" } "firmware/RPI_PICO-v1.22.2.uf2"
  exact ⟨h.1.trans (by decide), h.2⟩

/-- The per-method preferred extension table of `select_firmware_for_method`
(`mpflash/flash/worklist.py` lines 39-46); the Python `dict.get` default is
never used because every `FlashMethod` member is a key. -/
def method_preferences : FlashMethod → List String
  | .PYOCD => [".hex", ".bin", ".elf"]
  | .DFU => [".dfu"]
  | .UF2 => [".uf2"]
  | .ESPTOOL => [".bin"]
  | .SERIAL => [".dfu", ".hex", ".bin", ".uf2"]
  | .AUTO => [".dfu", ".hex", ".bin", ".uf2", ".elf"]

/-- `fw.firmware_file.lower().endswith(ext)` from the selection loop. -/
def fwMatchesExt (fw : Firmware) (ext : String) : Bool :=
  strEndsWith (strLower fw.firmware_file) ext

/-- The nested loop of `select_firmware_for_method`: first extension in
preference order for which some firmware matches, returning the first such
firmware in list order. -/
def findPreferred (firmwares : List Firmware) : List String → Option Firmware
  | [] => none
  | ext :: rest =>
    match firmwares.find? (fun fw => fwMatchesExt fw ext) with
    | some fw => some fw
    | none => findPreferred firmwares rest

/-- `select_firmware_for_method` (`mpflash/flash/worklist.py` lines 21-59). -/
def select_firmware_for_method (firmwares : List Firmware) (method : FlashMethod) :
    Except PyErr Firmware :=
  match firmwares with
  | [] => .error (.mpflashError "No firmware files available")
  | [fw] => .ok fw
  | a :: b :: t =>
    match findPreferred (a :: b :: t) (method_preferences method) with
    | some fw => .ok fw
    | none => .ok ((a :: b :: t).getLastD a)

/-- The earliest-listed extension of the preference order matched by some
candidate, following the words of the spec. -/
def specPreferredExt (firmwares : List Firmware) (m : FlashMethod) : Option String :=
  (method_preferences m).find? (fun ext => firmwares.any (fun fw => fwMatchesExt fw ext))

/-- Selection rule as the spec words it: the first candidate in list order
matching the earliest-listed matching extension, else the last candidate. -/
def specSelect (firmwares : List Firmware) (m : FlashMethod) : Option Firmware :=
  match specPreferredExt firmwares m with
  | some ext => firmwares.find? (fun fw => fwMatchesExt fw ext)
  | none => firmwares.getLast?

/-- `findPreferred` agrees with the find?-of-find? spec formulation. -/
theorem findPreferred_eq (firmwares : List Firmware) (exts : List String) :
    findPreferred firmwares exts =
      match exts.find? (fun ext => firmwares.any (fun fw => fwMatchesExt fw ext)) with
      | some ext => firmwares.find? (fun fw => fwMatchesExt fw ext)
      | none => none := by
  induction exts with
  | nil => rfl
  | cons e rest ih =>
    by_cases h : firmwares.any (fun fw => fwMatchesExt fw e) = true
    · rcases List.any_eq_true.mp h with ⟨fw, hmem, hmatch⟩
      have : (firmwares.find? (fun fw => fwMatchesExt fw e)).isSome := by
        rw [List.find?_isSome]
        exact ⟨fw, hmem, hmatch⟩
      rcases Option.isSome_iff_exists.mp this with ⟨fw0, hfw0⟩
      simp [findPreferred, hfw0, List.find?_cons_of_pos, h]
    · have hfind : firmwares.find? (fun fw => fwMatchesExt fw e) = none := by
        rw [List.find?_eq_none]
        intro x hx
        intro hmatch
        exact absurd (List.any_eq_true.mpr ⟨x, hx, hmatch⟩) h
      simp only [Bool.not_eq_true] at h
      simp [findPreferred, hfind, List.find?_cons_of_neg, h, ih]

/-- C4: for every non-empty candidate list and every transport hint, the
selection is a function of its inputs returning the first candidate in list
order matching the earliest-listed matching extension of the hint's
preference order (probe: .hex,.bin,.elf; dfu: .dfu; uf2: .uf2;
esptool: .bin; serial: .dfu,.hex,.bin,.uf2; auto: .dfu,.hex,.bin,.uf2,.elf),
and the last candidate when no extension occurs in the preference list. -/
theorem select_firmware_for_method_spec (firmwares : List Firmware) (m : FlashMethod)
    (h : firmwares ≠ []) :
    ∃ fw, select_firmware_for_method firmwares m = .ok fw ∧
      specSelect firmwares m = some fw := by
  match firmwares with
  | [] => exact absurd rfl h
  | [a] =>
    refine ⟨a, rfl, ?_⟩
    unfold specSelect
    cases hfind : specPreferredExt [a] m with
    | none => rfl
    | some e =>
      have hpred := List.find?_some hfind
      have hm : fwMatchesExt a e = true := by simpa using hpred
      show List.find? (fun fw => fwMatchesExt fw e) [a] = some a
      simp [List.find?, hm]
  | a :: b :: t =>
    have hsel : select_firmware_for_method (a :: b :: t) m =
        (match findPreferred (a :: b :: t) (method_preferences m) with
          | some fw => Except.ok fw
          | none => Except.ok ((a :: b :: t).getLastD a)) := rfl
    rw [hsel, findPreferred_eq]
    cases hfind : specPreferredExt (a :: b :: t) m with
    | some e =>
      have hfind2 : (method_preferences m).find?
          (fun ext => (a :: b :: t).any (fun fw => fwMatchesExt fw ext)) = some e := hfind
      have hany : (a :: b :: t).any (fun fw => fwMatchesExt fw e) = true := by
        simpa using List.find?_some hfind2
      rcases List.any_eq_true.mp hany with ⟨fw, hmem, hmatch⟩
      have hsome : ((a :: b :: t).find? (fun fw => fwMatchesExt fw e)).isSome := by
        rw [List.find?_isSome]
        exact ⟨fw, hmem, hmatch⟩
      rcases Option.isSome_iff_exists.mp hsome with ⟨fw0, hfw0⟩
      refine ⟨fw0, ?_, ?_⟩
      · rw [hfind2]
        show (match List.find? (fun fw => fwMatchesExt fw e) (a :: b :: t) with
            | some fw => Except.ok fw
            | none => Except.ok ((a :: b :: t).getLastD a)) = Except.ok fw0
        rw [hfw0]
      · simp [specSelect, hfind, hfw0]
    | none =>
      have hfind2 : (method_preferences m).find?
          (fun ext => (a :: b :: t).any (fun fw => fwMatchesExt fw ext)) = none := hfind
      refine ⟨(a :: b :: t).getLastD a, ?_, ?_⟩
      · rw [hfind2]
      · simp only [specSelect, hfind, List.getLastD_eq_getLast?]
        have hs : ((b :: t).getLast?).isSome := List.getLast?_isSome.mpr (by simp)
        rcases Option.isSome_iff_exists.mp hs with ⟨x, hx⟩
        simp [List.getLast?_cons_cons, hx]

/-- Closed instance of the C4 theorem: with a `.dfu` and a `.hex` artifact
available, the probe method selects the `.hex` one. -/
theorem select_firmware_for_method_spec_witness :
    ∃ fw, select_firmware_for_method
        [{ board_id := "NUCLEO_WB55", version := "v1.22.0",
           firmware_file := "stm32/NUCLEO_WB55-v1.22.0.dfu" },
         { board_id := "NUCLEO_WB55", version := "v1.22.0",
           firmware_file := "stm32/NUCLEO_WB55-v1.22.0.hex" }] .PYOCD = .ok fw ∧
      specSelect
        [{ board_id := "NUCLEO_WB55", version := "v1.22.0",
           firmware_file := "stm32/NUCLEO_WB55-v1.22.0.dfu" },
         { board_id := "NUCLEO_WB55", version := "v1.22.0",
           firmware_file := "stm32/NUCLEO_WB55-v1.22.0.hex" }] .PYOCD = some fw :=
  select_firmware_for_method_spec _ .PYOCD (by decide)

/-- C10: called with an empty candidate list, firmware selection raises
`MPFlashError`; called with exactly one candidate it returns that candidate
unconditionally, for every transport hint, even when the candidate's
extension is not in the preference list. -/
theorem select_firmware_empty_and_singleton (m : FlashMethod) (fw : Firmware) :
    select_firmware_for_method [] m = .error (.mpflashError "No firmware files available") ∧
    select_firmware_for_method [fw] m = .ok fw :=
  ⟨rfl, rfl⟩

/-- Modelled from the spec: `mpflash.versions.clean_version` is not under the
provided sources. The spec passes the user's version string (semver, `stable`
or `preview`) through to the catalog lookup unchanged, so the normalisation is
modelled as the identity. -/
def clean_version (v : String) : String := v

/-- The preview branch of the catalog query
(`mpflash/downloaded.py` lines 34-37 and 61-64 before ordering):
filter by board, optionally by port, and keep artifacts whose path contains
`preview`. -/
def previewFilter (db : List Firmware) (board_id port : String) : List Firmware :=
  let q1 := db.filter (fun f => f.board_id = board_id)
  let q2 := if port = "" then q1 else q1.filter (fun f => f.port = port)
  q2.filter (fun f => strContains f.firmware_file "preview")

/-- Insert into a build-descending list, keeping earlier entries first on
ties (`ORDER BY build DESC`). -/
def insertBuildDesc (f : Firmware) : List Firmware → List Firmware
  | [] => [f]
  | g :: t => if g.build < f.build then f :: g :: t else g :: insertBuildDesc f t

/-- Sort a query result by build number descending
(`.order_by(Firmware.build.desc())`). -/
def sortByBuildDesc : List Firmware → List Firmware
  | [] => []
  | f :: t => insertBuildDesc f (sortByBuildDesc t)

/-- One catalog pass of `find_downloaded_firmware` (the body of one
`with Session()` block, `mpflash/downloaded.py` lines 31-44 and 59-71):
for a preview version return the single highest build of the preview
artifacts, otherwise all exact version matches; empty when nothing matched. -/
def catalogLookupOnce (db : List Firmware) (board_id version port : String) : List Firmware :=
  if version = "preview" ∨ strContains version "preview" then
    match sortByBuildDesc (previewFilter db board_id port) with
    | [] => []
    | fw :: _ => [fw]
  else
    db.filter (fun f => f.board_id = board_id ∧ f.version = version)

/-- The alternate board identifier rewrite of `find_downloaded_firmware`
(`mpflash/downloaded.py` lines 46-56): `PICO → RPI_PICO`, `RPI_` stripped,
`GENERIC → <PORT>_GENERIC`, `ESP32_`/`ESP8266_` stripped. -/
def renameBoardId (board_id port : String) : String :=
  if strStartsWith board_id "PICO" then pyReplace board_id "PICO" "RPI_PICO"
  else if strStartsWith board_id "RPI_" then pyReplace board_id "RPI_" ""
  else if strStartsWith board_id "GENERIC" then
    pyReplace board_id "GENERIC" (strUpper port ++ "_GENERIC")
  else if strStartsWith board_id "ESP32_" then pyReplace board_id "ESP32_" ""
  else if strStartsWith board_id "ESP8266_" then pyReplace board_id "ESP8266_" ""
  else board_id

/-- `find_downloaded_firmware` (`mpflash/downloaded.py` lines 22-73): clean
the version, run the primary catalog pass, and when it is empty retry exactly
once with the rewritten board identifier; `[]` when both passes are empty. -/
def find_downloaded_firmware (db : List Firmware) (board_id version port : String) :
    List Firmware :=
  match catalogLookupOnce db board_id (clean_version version) port with
  | [] => catalogLookupOnce db (renameBoardId board_id port) (clean_version version) port
  | fws => fws

/-- Members of `insertBuildDesc` are the inserted element or old members. -/
theorem mem_insertBuildDesc {x f : Firmware} {l : List Firmware}
    (h : x ∈ insertBuildDesc f l) : x = f ∨ x ∈ l := by
  induction l with
  | nil => simpa [insertBuildDesc] using h
  | cons g t ih =>
    by_cases hb : g.build < f.build
    · simp only [insertBuildDesc, if_pos hb] at h
      rcases List.mem_cons.mp h with h1 | h1
      · exact Or.inl h1
      · exact Or.inr h1
    · simp only [insertBuildDesc, if_neg hb] at h
      rcases List.mem_cons.mp h with h1 | h1
      · exact Or.inr (by simp [h1])
      · rcases ih h1 with h2 | h2
        · exact Or.inl h2
        · exact Or.inr (List.mem_cons_of_mem g h2)

/-- The inserted element is a member of the insertion. -/
theorem self_mem_insertBuildDesc (f : Firmware) (l : List Firmware) :
    f ∈ insertBuildDesc f l := by
  induction l with
  | nil => simp [insertBuildDesc]
  | cons g t ih =>
    by_cases hb : g.build < f.build
    · simp [insertBuildDesc, hb]
    · simp only [insertBuildDesc, if_neg hb]
      exact List.mem_cons_of_mem g ih

/-- Old members survive `insertBuildDesc`. -/
theorem mem_insertBuildDesc_of_mem {x : Firmware} (f : Firmware) {l : List Firmware}
    (h : x ∈ l) : x ∈ insertBuildDesc f l := by
  induction l with
  | nil => cases h
  | cons g t ih =>
    by_cases hb : g.build < f.build
    · simp only [insertBuildDesc, if_pos hb]
      exact List.mem_cons_of_mem f h
    · simp only [insertBuildDesc, if_neg hb]
      rcases List.mem_cons.mp h with h | h
      · simp [h]
      · exact List.mem_cons_of_mem g (ih h)

/-- `sortByBuildDesc` preserves membership in both directions. -/
theorem mem_sortByBuildDesc {x : Firmware} {l : List Firmware} :
    x ∈ sortByBuildDesc l ↔ x ∈ l := by
  induction l with
  | nil => simp [sortByBuildDesc]
  | cons f t ih =>
    constructor
    · intro h
      rcases mem_insertBuildDesc h with h | h
      · simp [h]
      · exact List.mem_cons_of_mem f (ih.mp h)
    · intro h
      rcases List.mem_cons.mp h with h | h
      · rw [h]
        exact self_mem_insertBuildDesc f (sortByBuildDesc t)
      · exact mem_insertBuildDesc_of_mem f (ih.mpr h)

/-- The head of a non-empty list dominates every member's build number. -/
def headDominates : List Firmware → Prop
  | [] => True
  | h :: t => ∀ x ∈ h :: t, x.build ≤ h.build

/-- `insertBuildDesc` preserves head dominance. -/
theorem headDominates_insertBuildDesc {l : List Firmware} (f : Firmware)
    (hl : headDominates l) : headDominates (insertBuildDesc f l) := by
  cases l with
  | nil =>
    intro x hx
    rcases List.mem_singleton.mp hx with h
    simp [h]
  | cons g t =>
    by_cases hb : g.build < f.build
    · simp only [insertBuildDesc, if_pos hb]
      intro x hx
      rcases List.mem_cons.mp hx with h | h
      · simp [h]
      · exact le_of_lt (lt_of_le_of_lt (hl x h) hb)
    · simp only [insertBuildDesc, if_neg hb]
      intro x hx
      rcases List.mem_cons.mp hx with h | h
      · simp [h]
      · rcases mem_insertBuildDesc h with h | h
        · rw [h]
          exact Nat.le_of_not_lt hb
        · exact hl x (List.mem_cons_of_mem g h)

/-- Every `sortByBuildDesc` result has a build-maximal head. -/
theorem headDominates_sortByBuildDesc (l : List Firmware) :
    headDominates (sortByBuildDesc l) := by
  induction l with
  | nil => trivial
  | cons f t ih => exact headDominates_insertBuildDesc f ih

/-- In a `sortByBuildDesc` result `h0 :: rest`, the head build is maximal
among the builds of the unsorted list. -/
theorem sortByBuildDesc_head_max {l : List Firmware} {h0 : Firmware} {rest : List Firmware}
    (hsort : sortByBuildDesc l = h0 :: rest) :
    ∀ x ∈ l, x.build ≤ h0.build := by
  intro x hx
  have hmem : x ∈ sortByBuildDesc l := mem_sortByBuildDesc.mpr hx
  have hdom := headDominates_sortByBuildDesc l
  rw [hsort] at hmem hdom
  exact hdom x hmem

/-- One preview-mode catalog pass returns either nothing (when no preview
artifact matches) or the single preview artifact with the maximal build. -/
theorem catalogLookupOnce_preview (db : List Firmware) (board_id port v : String)
    (hv : v = "preview" ∨ strContains v "preview" = true) :
    (catalogLookupOnce db board_id v port = [] ∧ previewFilter db board_id port = []) ∨
    (∃ fw, catalogLookupOnce db board_id v port = [fw] ∧
      fw ∈ previewFilter db board_id port ∧
      ∀ g ∈ previewFilter db board_id port, g.build ≤ fw.build) := by
  have hcond : catalogLookupOnce db board_id v port =
      match sortByBuildDesc (previewFilter db board_id port) with
      | [] => []
      | fw :: _ => [fw] := by
    unfold catalogLookupOnce
    rw [if_pos hv]
  cases hs : sortByBuildDesc (previewFilter db board_id port) with
  | nil =>
    left
    refine ⟨by rw [hcond, hs], ?_⟩
    rcases hne : previewFilter db board_id port with _ | ⟨f, t⟩
    · rfl
    · exfalso
      have : f ∈ sortByBuildDesc (previewFilter db board_id port) :=
        mem_sortByBuildDesc.mpr (by rw [hne]; exact List.mem_cons_self f t)
      rw [hs] at this
      cases this
  | cons fw rest =>
    right
    refine ⟨fw, by rw [hcond, hs], ?_, sortByBuildDesc_head_max hs⟩
    have : fw ∈ sortByBuildDesc (previewFilter db board_id port) := by
      rw [hs]
      exact List.mem_cons_self fw rest
    exact mem_sortByBuildDesc.mp this

/-- When the primary catalog pass is empty, `find_downloaded_firmware` is the
single retry with the rewritten board identifier. -/
theorem find_downloaded_of_primary_empty {db : List Firmware}
    {board_id version port : String}
    (h1 : catalogLookupOnce db board_id (clean_version version) port = []) :
    find_downloaded_firmware db board_id version port =
      catalogLookupOnce db (renameBoardId board_id port) (clean_version version) port := by
  unfold find_downloaded_firmware
  rw [h1]

/-- When the primary catalog pass is non-empty, `find_downloaded_firmware`
returns it unchanged. -/
theorem find_downloaded_of_primary_cons {db : List Firmware}
    {board_id version port : String} {f : Firmware} {t : List Firmware}
    (h1 : catalogLookupOnce db board_id (clean_version version) port = f :: t) :
    find_downloaded_firmware db board_id version port = f :: t := by
  unfold find_downloaded_firmware
  rw [h1]

/-- C3: for a version containing the token `preview`, the catalog lookup
returns at most one firmware entry; when preview artifacts exist for the
board (with the given port), the returned entry has the maximal build number
among them, and likewise for the rewritten board identifier when the board
itself has none. -/
theorem find_downloaded_firmware_preview (db : List Firmware)
    (board_id version port : String)
    (hprev : strContains (clean_version version) "preview" = true) :
    (find_downloaded_firmware db board_id version port).length ≤ 1 ∧
    (previewFilter db board_id port ≠ [] →
      ∃ fw, find_downloaded_firmware db board_id version port = [fw] ∧
        fw ∈ previewFilter db board_id port ∧
        ∀ g ∈ previewFilter db board_id port, g.build ≤ fw.build) ∧
    (previewFilter db board_id port = [] →
      previewFilter db (renameBoardId board_id port) port ≠ [] →
      ∃ fw, find_downloaded_firmware db board_id version port = [fw] ∧
        fw ∈ previewFilter db (renameBoardId board_id port) port ∧
        ∀ g ∈ previewFilter db (renameBoardId board_id port) port, g.build ≤ fw.build) := by
  have hv : clean_version version = "preview" ∨
      strContains (clean_version version) "preview" = true := Or.inr hprev
  rcases catalogLookupOnce_preview db board_id port (clean_version version) hv with
    ⟨he, hpf⟩ | ⟨fw, heq, hmem, hmax⟩
  · have hfd := find_downloaded_of_primary_empty he
    rcases catalogLookupOnce_preview db (renameBoardId board_id port) port
        (clean_version version) hv with ⟨he2, hpf2⟩ | ⟨fw2, heq2, hmem2, hmax2⟩
    · refine ⟨?_, ?_, ?_⟩
      · rw [hfd, he2]
        simp
      · intro hne
        exact absurd hpf hne
      · intro _ hne2
        exact absurd hpf2 hne2
    · refine ⟨?_, ?_, ?_⟩
      · rw [hfd, heq2]
        simp
      · intro hne
        exact absurd hpf hne
      · intro _ _
        exact ⟨fw2, by rw [hfd, heq2], hmem2, hmax2⟩
  · have hfd := find_downloaded_of_primary_cons heq
    refine ⟨?_, ?_, ?_⟩
    · rw [hfd]
      simp
    · intro _
      exact ⟨fw, hfd, hmem, hmax⟩
    · intro hpf _
      rw [hpf] at hmem
      cases hmem

/-- Preview artifact of build 1234 (spec scenario 3). -/
def fwPrev1234 : Firmware :=
  { board_id := "ESP32_GENERIC", version := "v1.26.0-preview", port := "esp32",
    firmware_file := "esp32/ESP32_GENERIC-v1.26.0-preview.1234.bin", build := 1234 }

/-- Preview artifact of build 1240 (spec scenario 3). -/
def fwPrev1240 : Firmware :=
  { board_id := "ESP32_GENERIC", version := "v1.26.0-preview", port := "esp32",
    firmware_file := "esp32/ESP32_GENERIC-v1.26.0-preview.1240.bin", build := 1240 }

/-- A two-entry preview catalog for the C3 witness. -/
def dbPreview : List Firmware := [fwPrev1234, fwPrev1240]

/-- Closed instance of the C3 theorem: with preview builds 1234 and 1240 in
the catalog, the lookup returns exactly the single build-1240 artifact. -/
theorem find_downloaded_firmware_preview_witness :
    find_downloaded_firmware dbPreview "ESP32_GENERIC" "preview" "esp32" = [fwPrev1240] ∧
    ((find_downloaded_firmware dbPreview "ESP32_GENERIC" "preview" "esp32").length ≤ 1 ∧
      (previewFilter dbPreview "ESP32_GENERIC" "esp32" ≠ [] →
        ∃ fw, find_downloaded_firmware dbPreview "ESP32_GENERIC" "preview" "esp32" = [fw] ∧
          fw ∈ previewFilter dbPreview "ESP32_GENERIC" "esp32" ∧
          ∀ g ∈ previewFilter dbPreview "ESP32_GENERIC" "esp32", g.build ≤ fw.build) ∧
      (previewFilter dbPreview "ESP32_GENERIC" "esp32" = [] →
        previewFilter dbPreview (renameBoardId "ESP32_GENERIC" "esp32") "esp32" ≠ [] →
        ∃ fw, find_downloaded_firmware dbPreview "ESP32_GENERIC" "preview" "esp32" = [fw] ∧
          fw ∈ previewFilter dbPreview (renameBoardId "ESP32_GENERIC" "esp32") "esp32" ∧
          ∀ g ∈ previewFilter dbPreview (renameBoardId "ESP32_GENERIC" "esp32") "esp32",
            g.build ≤ fw.build)) :=
  ⟨by decide,
    find_downloaded_firmware_preview dbPreview "ESP32_GENERIC" "preview" "esp32" (by decide)⟩

/-- C7: for a non-preview version, when the primary lookup for a board
identifier beginning with `PICO` finds nothing, `find_downloaded_firmware`
retries exactly once with `PICO` rewritten to `RPI_PICO` and returns
precisely the firmwares catalogued under the rewritten identifier at that
version. -/
theorem find_downloaded_firmware_pico_rename (db : List Firmware)
    (board_id version port : String)
    (hnp1 : clean_version version ≠ "preview")
    (hnp2 : strContains (clean_version version) "preview" = false)
    (hpico : strStartsWith board_id "PICO" = true)
    (hempty : db.filter
      (fun f => f.board_id = board_id ∧ f.version = clean_version version) = []) :
    find_downloaded_firmware db board_id version port =
      db.filter (fun f => f.board_id = pyReplace board_id "PICO" "RPI_PICO" ∧
        f.version = clean_version version) := by
  have hcnd : ¬(clean_version version = "preview" ∨
      strContains (clean_version version) "preview" = true) := by
    intro h
    rcases h with h | h
    · exact hnp1 h
    · rw [hnp2] at h
      cases h
  have h1 : catalogLookupOnce db board_id (clean_version version) port = [] := by
    unfold catalogLookupOnce
    rw [if_neg hcnd, hempty]
  have hrn : renameBoardId board_id port = pyReplace board_id "PICO" "RPI_PICO" := by
    unfold renameBoardId
    rw [if_pos hpico]
  rw [find_downloaded_of_primary_empty h1, hrn]
  unfold catalogLookupOnce
  rw [if_neg hcnd]

/-- Firmware catalogued under the modern `RPI_PICO` identifier. -/
def fwRpiPico : Firmware :=
  { board_id := "RPI_PICO", version := "v1.22.2", port := "rp2",
    firmware_file := "rp2/RPI_PICO-v1.22.2.uf2", build := 0 }

/-- A one-entry catalog for the C7 witness. -/
def dbRpiPico : List Firmware := [fwRpiPico]

/-- Closed instance of the C7 theorem: a lookup for board `PICO` finds the
firmware catalogued under `RPI_PICO`. -/
theorem find_downloaded_firmware_pico_rename_witness :
    find_downloaded_firmware dbRpiPico "PICO" "v1.22.2" "rp2" =
      dbRpiPico.filter (fun f => f.board_id = pyReplace "PICO" "PICO" "RPI_PICO" ∧
        f.version = clean_version "v1.22.2") ∧
    find_downloaded_firmware dbRpiPico "PICO" "v1.22.2" "rp2" = [fwRpiPico] :=
  ⟨find_downloaded_firmware_pico_rename dbRpiPico "PICO" "v1.22.2" "rp2"
      (by decide) (by decide) (by decide) (by decide),
    by decide⟩

/-- A row of the `board_downloaded` view / `boards` table
(`mpflash/db/models.py`, class `Board`). -/
structure BoardRow where
  board_id : String
  version : String
  board_name : String := ""
  mcu : String := ""
  variant : String := ""
  port : String := ""
  description : String := ""
  family : String := "micropython"
  custom : Bool := false
  deriving Repr, DecidableEq

/-- Fuel-indexed SQL `LIKE` matcher for patterns built from literal
characters and `%` (the only wildcard the embedded queries use); ASCII
case-insensitive like SQLite's default `LIKE`. Every recursive call shrinks
the pattern or the subject, so fuel `pat.length + s.length + 1` is enough. -/
def likeMatchFuel : Nat → List Char → List Char → Bool
  | 0, _, _ => false
  | _ + 1, [], s => s.isEmpty
  | n + 1, '%' :: pt, s =>
    likeMatchFuel n pt s ||
      (match s with
        | [] => false
        | _ :: st => likeMatchFuel n ('%' :: pt) st)
  | _ + 1, _ :: _, [] => false
  | n + 1, c :: pt, c2 :: st => (c = c2) && likeMatchFuel n pt st

/-- SQL `s LIKE pat` (SQLite semantics: ASCII case-insensitive). -/
def strLike (s pat : String) : Bool :=
  likeMatchFuel (pat.length + s.length + 1) (strLower pat).data (strLower s).data

/-- The four description variants probed by
`_find_board_id_by_description` (`mpflash/mpboard_id/board_id.py` lines
59-62): the description, the short description, and both stripped of a
leading `Generic ` when the description starts with `Generic`. -/
def descrVariants (descr short_descr : String) : List String :=
  [descr, short_descr] ++
    (if strStartsWith descr "Generic" then [strDrop descr 8, strDrop short_descr 8] else [])

/-- `_find_board_id_by_description` (`mpflash/mpboard_id/board_id.py` lines
46-81): select the rows of every board whose description matches one of the
variants at any version, filtered by the version pattern and an empty
variant, and raise `MPFlashError` when no row survives. -/
def _find_board_id_by_description (reg : List BoardRow)
    (descr short_descr version : String) : Except PyErr (List BoardRow) :=
  let v0 := if version = "" then "%" else clean_version version
  let v1 := if strContains v0 "-preview" then pyReplace v0 "-preview" "%" else v0
  let ds := descrVariants descr short_descr
  let ids := (reg.filter (fun r => r.description ∈ ds)).map (fun r => r.board_id)
  let rows := reg.filter (fun r => r.board_id ∈ ids ∧ strLike r.version v1 ∧ strLike r.variant "")
  if rows.isEmpty then
    .error (.mpflashError ("No board info found for description " ++ descr))
  else
    .ok rows

/-- `find_board_id_by_description` (`mpflash/mpboard_id/board_id.py` lines
17-43): primary lookup at the given version, a retry with any version when
the primary returns an empty list, `UNKNOWN_BOARD` when `MPFlashError` was
raised. -/
def find_board_id_by_description (reg : List BoardRow)
    (descr short_descr version : String) : Option String :=
  match _find_board_id_by_description reg descr short_descr
      (if version = "" then "" else clean_version version) with
  | .error _ => some "UNKNOWN_BOARD"
  | .ok boards =>
    if boards.isEmpty then
      match _find_board_id_by_description reg descr short_descr "%" with
      | .error _ => some "UNKNOWN_BOARD"
      | .ok boards2 =>
        if boards2.isEmpty then none else boards2.head?.map (fun r => r.board_id)
    else
      boards.head?.map (fun r => r.board_id)

/-- Registry for the C5 failing input: one board known only at `v1.22.0`. -/
def regNano : List BoardRow :=
  [{ board_id := "ARDUINO_NANO_RP2040_CONNECT", version := "v1.22.0",
     description := "Arduino Nano RP2040 Connect with RP2040", variant := "", port := "rp2" }]

/-- C5 failing input: the board registry has no row at the requested version
`v1.21.0` but has a matching row at `v1.22.0`; `find_board_id_by_description`
returns `UNKNOWN_BOARD` instead of retrying with any version, because
`_find_board_id_by_description` raises `MPFlashError` on the empty
version-filtered result (making the retry at `board_id.py` line 35
unreachable), while a lookup without a version does find the board. -/
theorem find_board_id_by_description_dead_retry :
    (∃ r ∈ regNano, r.description = "Arduino Nano RP2040 Connect with RP2040" ∧
      r.version ≠ "v1.21.0") ∧
    find_board_id_by_description regNano
      "Arduino Nano RP2040 Connect with RP2040" "Arduino Nano RP2040 Connect" "v1.21.0" =
      some "UNKNOWN_BOARD" ∧
    find_board_id_by_description regNano
      "Arduino Nano RP2040 Connect with RP2040" "Arduino Nano RP2040 Connect" "" =
      some "ARDUINO_NANO_RP2040_CONNECT" := by
  refine ⟨⟨regNano.head (by decide), by decide⟩, by decide, by decide⟩

/-- Modelled from the spec: `find_known_board` resolves a board identifier
through `mpflash.db.boards` (not under the provided sources); spec section 4.3
specifies an exact lookup by identifier with ties broken by the first row in
natural order, raising when the board is unknown
(`mpflash/mpboard_id/known.py` lines 62-76). -/
def find_known_board (reg : List BoardRow) (board_id : String) : Except PyErr BoardRow :=
  match reg.find? (fun r => r.board_id = board_id) with
  | some r => .ok r
  | none => .error (.mpflashError ("Board " ++ board_id ++ " not found"))

/-- The keyword parameters accepted by `find_downloaded_firmware`
(`mpflash/downloaded.py` lines 22-27): `board_id`, `version`, `port`,
`variants`. -/
def find_downloaded_firmware_kwargs : List String :=
  ["board_id", "version", "port", "variants"]

/-- The keyword arguments `manual_board` passes to
`find_downloaded_firmware` (`mpflash/flash/worklist.py` line 155). -/
def manual_board_call_kwargs : List String :=
  ["board_id", "version", "port", "custom"]

/-- `manual_board` (`mpflash/flash/worklist.py` lines 124-161): build a
synthetic device for the serial port, resolve port and cpu from the board
registry (returning `(mcu, None)` when the registry lookup raises), then call
`find_downloaded_firmware` and select a firmware for the method. Python binds
keyword arguments against the callee signature at call time, so the call is
modelled with an explicit keyword-compatibility check: when the call site
passes a keyword the signature does not accept, the call raises `TypeError`,
which nothing in `manual_board` catches. -/
def manual_board (reg : List BoardRow) (db : List Firmware)
    (serial board_id version : String) (custom : Bool) (method : FlashMethod) :
    Except PyErr (MPRemoteBoard × Option Firmware) :=
  match find_known_board reg board_id with
  | .error _ => .ok ({ serialport := serial }, none)
  | .ok info =>
    if manual_board_call_kwargs.all (fun k => k ∈ find_downloaded_firmware_kwargs) then
      match find_downloaded_firmware db board_id version info.port with
      | [] => .ok ({ serialport := serial, port := info.port, cpu := info.mcu,
                     board := board_id }, none)
      | fw0 :: fws =>
        match select_firmware_for_method (fw0 :: fws) method with
        | .ok fw => .ok ({ serialport := serial, port := info.port, cpu := info.mcu,
                           board := board_id }, some fw)
        | .error e => .error e
    else
      .error (.typeError
        "find_downloaded_firmware got an unexpected keyword argument custom")

/-- Registry for the C6 failing input: `RPI_PICO` is a known board. -/
def regPico : List BoardRow :=
  [{ board_id := "RPI_PICO", version := "v1.22.2", port := "rp2", mcu := "RP2040",
     description := "Raspberry Pi Pico with RP2040" }]

/-- C6 failing input: for a serial port and a board identifier that exists in
the registry, `manual_board` raises `TypeError` instead of returning a
`(device, firmware-or-None)` pair, because `worklist.py` line 155 passes the
keyword `custom` to `find_downloaded_firmware`, whose signature
(`downloaded.py` lines 22-27) has `variants` but no `custom` parameter. -/
theorem manual_board_custom_keyword_typeerror :
    (∃ r ∈ regPico, r.board_id = "RPI_PICO") ∧
    manual_board regPico dbRpiPico "COM3" "RPI_PICO" "v1.22.2" false .AUTO =
      .error (.typeError
        "find_downloaded_firmware got an unexpected keyword argument custom") := by
  refine ⟨⟨regPico.head (by decide), by decide⟩, by decide⟩

/-- A parsed introspection record: the brace-delimited dictionary printed by
the on-device identity script, as key-value pairs. -/
def InfoRecord := List (String × String)

/-- Python's `info[k]` lookup result (first binding wins, as in a dict). -/
def rget (info : List (String × String)) (k : String) : Option String :=
  (info.find? (fun p => p.1 = k)).map (fun p => p.2)

/-- The record-consuming tail of `MPRemoteBoard.get_mcu_info`
(`mpflash/mpremoteboard/__init__.py` lines 120-137): each field is read with
a direct `info[...]` index (raising `KeyError` when the key is absent), the
short description is the text before the last `" with"`, and the board
identifier is resolved through `find_board_id_by_description`, falling back
to `UNKNOWN_BOARD` on a falsy result. -/
def get_mcu_info_parse (reg : List BoardRow) (serial : String)
    (info : List (String × String)) : Except PyErr MPRemoteBoard :=
  match rget info "family" with
  | none => .error (.keyError "family")
  | some family =>
  match rget info "version" with
  | none => .error (.keyError "version")
  | some version =>
  match rget info "build" with
  | none => .error (.keyError "build")
  | some build =>
  match rget info "port" with
  | none => .error (.keyError "port")
  | some port =>
  match rget info "cpu" with
  | none => .error (.keyError "cpu")
  | some cpu =>
  match rget info "arch" with
  | none => .error (.keyError "arch")
  | some arch =>
  match rget info "mpy" with
  | none => .error (.keyError "mpy")
  | some mpy =>
  match rget info "board" with
  | none => .error (.keyError "board")
  | some descr =>
    let short_descr :=
      match strRFind descr " with" with
      | some i => pyStrip (strTake descr i)
      | none => ""
    let board :=
      match find_board_id_by_description reg descr short_descr version with
      | some b => if b = "" then "UNKNOWN_BOARD" else b
      | none => "UNKNOWN_BOARD"
    .ok { serialport := serial, family := family, version := version, build := build,
          port := port, cpu := cpu, arch := arch, mpy := mpy,
          description := descr, board := board }

/-- An introspection record with every consumed key except `cpu`. -/
def infoMissingCpu : List (String × String) :=
  [("family", "micropython"), ("version", "1.22.0"), ("build", ""), ("port", "rp2"),
   ("arch", "armv6m"), ("mpy", "v6.2"), ("board", "Raspberry Pi Pico with RP2040")]

/-- C8 counterexample: on a record missing the `cpu` key, the consumer raises
`KeyError` instead of defaulting the field to the empty string and producing
a Device record. -/
theorem get_mcu_info_missing_key_counterexample :
    rget infoMissingCpu "cpu" = none ∧
    get_mcu_info_parse [] "COM1" infoMissingCpu = .error (.keyError "cpu") := by
  exact ⟨by decide, by decide⟩

/-- C8 amended: the consumer produces a populated device record exactly when
all eight consumed keys (`family`, `version`, `build`, `port`, `cpu`, `arch`,
`mpy`, `board`) are present; a record missing any of them makes
`get_mcu_info` fail with `KeyError` rather than defaulting the field. -/
theorem get_mcu_info_requires_all_keys (reg : List BoardRow) (serial : String)
    (info : List (String × String)) :
    (∃ d, get_mcu_info_parse reg serial info = .ok d) ↔
      (["family", "version", "build", "port", "cpu", "arch", "mpy", "board"].all
        (fun k => (rget info k).isSome)) = true := by
  cases h1 : rget info "family" with
  | none => simp [get_mcu_info_parse, h1]
  | some family =>
  cases h2 : rget info "version" with
  | none => simp [get_mcu_info_parse, h1, h2]
  | some version =>
  cases h3 : rget info "build" with
  | none => simp [get_mcu_info_parse, h1, h2, h3]
  | some build =>
  cases h4 : rget info "port" with
  | none => simp [get_mcu_info_parse, h1, h2, h3, h4]
  | some port =>
  cases h5 : rget info "cpu" with
  | none => simp [get_mcu_info_parse, h1, h2, h3, h4, h5]
  | some cpu =>
  cases h6 : rget info "arch" with
  | none => simp [get_mcu_info_parse, h1, h2, h3, h4, h5, h6]
  | some arch =>
  cases h7 : rget info "mpy" with
  | none => simp [get_mcu_info_parse, h1, h2, h3, h4, h5, h6, h7]
  | some mpy =>
  cases h8 : rget info "board" with
  | none => simp [get_mcu_info_parse, h1, h2, h3, h4, h5, h6, h7, h8]
  | some descr => simp [get_mcu_info_parse, h1, h2, h3, h4, h5, h6, h7, h8]

/-- A pyOCD target table entry (`get_pyocd_targets` values:
vendor, part number, source). -/
structure TargetInfo where
  vendor : String := ""
  part_number : String := ""
  source : String := ""
  deriving Repr, DecidableEq

/-- The parsed MCU information consumed by `fuzzy_match_target`
(the dictionary built by `parse_mcu_info`). -/
structure McuInfo where
  chip_family : String := ""
  chip_variant : String := ""
  board_name : String := ""
  full_description : String := ""
  cpu : String := ""
  port : String := ""
  deriving Repr, DecidableEq

/-- The per-target weighted score of `fuzzy_match_target`
(`mpflash/flash/pyocd_core.py` lines 320-354): family substring match in the
target name (weight 0.5, sequence similarity `sim` otherwise), family match
in the part number (weight 0.3), and a port-consistency bonus (0.2). The
floating-point arithmetic is embedded over `ℚ` with `SequenceMatcher.ratio`
abstracted as the parameter `sim`; the score of a target depends only on the
MCU information and that target's own table entry. -/
def scoreTarget (sim : String → String → ℚ) (mi : McuInfo)
    (name : String) (ti : TargetInfo) : ℚ :=
  let chip_family := strUpper mi.chip_family
  let port := strLower mi.port
  let target_lower := strLower name
  let part_number := strUpper ti.part_number
  let family_score : ℚ :=
    if strContains target_lower (strLower chip_family) then 1
    else sim (strLower chip_family) target_lower
  let part_score : ℚ :=
    if part_number ≠ "" ∧ strContains part_number chip_family then 1
    else if part_number ≠ "" then sim chip_family part_number
    else 0
  let port_score : ℚ :=
    if port = "stm32" ∧ strStartsWith target_lower "stm32" then 1/5
    else if port = "rp2" ∧ strContains target_lower "rp20" then 1/5
    else if port = "samd" ∧ strContains target_lower "samd" then 1/5
    else 0
  family_score * (1/2) + part_score * (3/10) + port_score

/-- One iteration of the matching loop: keep the target as the new best when
its score clears the 0.6 threshold and beats the current best score. -/
def fuzzyStep (sim : String → String → ℚ) (mi : McuInfo)
    (best : Option String × ℚ) (t : String × TargetInfo) : Option String × ℚ :=
  if 3/5 < scoreTarget sim mi t.1 t.2 ∧ best.2 < scoreTarget sim mi t.1 t.2 then
    (some t.1, scoreTarget sim mi t.1 t.2)
  else
    best

/-- The `(best_match, best_score)` pair computed by the loop of
`fuzzy_match_target` over the target table in iteration order, starting from
`(None, 0.0)`. -/
def fuzzyFold (sim : String → String → ℚ) (mi : McuInfo)
    (targets : List (String × TargetInfo)) : Option String × ℚ :=
  targets.foldl (fuzzyStep sim mi) (none, 0)

/-- `fuzzy_match_target` (`mpflash/flash/pyocd_core.py` lines 293-375):
`None` when the chip family is empty, otherwise the best match of the loop. -/
def fuzzy_match_target (sim : String → String → ℚ) (mi : McuInfo)
    (targets : List (String × TargetInfo)) : Option String :=
  if strUpper mi.chip_family = "" then none else (fuzzyFold sim mi targets).1

/-- The running best score never decreases from its initial value. -/
theorem fuzzyFold_snd_ge_init (sim : String → String → ℚ) (mi : McuInfo)
    (l : List (String × TargetInfo)) (b : Option String × ℚ) :
    b.2 ≤ (l.foldl (fuzzyStep sim mi) b).2 := by
  induction l generalizing b with
  | nil => exact le_refl _
  | cons t rest ih =>
    refine le_trans ?_ (ih (fuzzyStep sim mi b t))
    unfold fuzzyStep
    split_ifs with h
    · exact le_of_lt h.2
    · exact le_refl _

/-- Any member whose score clears the threshold bounds the final best score
from below. -/
theorem fuzzyFold_le_of_mem (sim : String → String → ℚ) (mi : McuInfo)
    {l : List (String × TargetInfo)} {t : String × TargetInfo}
    (hmem : t ∈ l) (hthr : 3/5 < scoreTarget sim mi t.1 t.2) :
    ∀ b : Option String × ℚ, scoreTarget sim mi t.1 t.2 ≤ (l.foldl (fuzzyStep sim mi) b).2 := by
  induction l with
  | nil => cases hmem
  | cons u rest ih =>
    intro b
    rcases List.mem_cons.mp hmem with h | h
    · subst h
      refine le_trans ?_ (fuzzyFold_snd_ge_init sim mi rest (fuzzyStep sim mi b t))
      unfold fuzzyStep
      split_ifs with hc
      · exact le_refl _
      · rcases not_and_or.mp hc with hc1 | hc1
        · exact absurd hthr hc1
        · exact le_of_not_lt hc1
    · exact ih h _

/-- The final best score is either the initial score or the score of some
member that cleared the threshold. -/
theorem fuzzyFold_snd_cases (sim : String → String → ℚ) (mi : McuInfo)
    (l : List (String × TargetInfo)) (b : Option String × ℚ) :
    (l.foldl (fuzzyStep sim mi) b).2 = b.2 ∨
      ∃ t ∈ l, (l.foldl (fuzzyStep sim mi) b).2 = scoreTarget sim mi t.1 t.2 ∧
        3/5 < scoreTarget sim mi t.1 t.2 := by
  induction l generalizing b with
  | nil => exact Or.inl rfl
  | cons u rest ih =>
    rcases ih (fuzzyStep sim mi b u) with h | ⟨t, hmem, heq, hthr⟩
    · simp only [List.foldl_cons]
      rw [h]
      unfold fuzzyStep
      split_ifs with hc
      · exact Or.inr ⟨u, List.mem_cons_self u rest, rfl, hc.1⟩
      · exact Or.inl rfl
    · exact Or.inr ⟨t, List.mem_cons_of_mem u hmem, heq, hthr⟩

/-- Invariant of the loop: a best match is present exactly when the best
score clears the threshold. -/
theorem fuzzyFold_isSome_iff (sim : String → String → ℚ) (mi : McuInfo)
    (l : List (String × TargetInfo)) :
    ∀ b : Option String × ℚ, (b.1.isSome ↔ 3/5 < b.2) →
      ((l.foldl (fuzzyStep sim mi) b).1.isSome ↔ 3/5 < (l.foldl (fuzzyStep sim mi) b).2) := by
  induction l with
  | nil => exact fun b hb => hb
  | cons u rest ih =>
    intro b hb
    refine ih (fuzzyStep sim mi b u) ?_
    unfold fuzzyStep
    split_ifs with hc
    · simpa using hc.1
    · exact hb

/-- C9: the per-target score is a function of the MCU information and the
target entry alone (the statement scores both runs with the same
`scoreTarget`), and enlarging the candidate table never lowers the score of
the chosen match: for `T ⊆ T'` the best score over `T'` dominates the best
score over `T`, and whenever a match is chosen over `T` a match is also
chosen over `T'`. -/
theorem fuzzy_match_target_monotone (sim : String → String → ℚ) (mi : McuInfo)
    (T T' : List (String × TargetInfo)) (hsub : ∀ t ∈ T, t ∈ T') :
    (fuzzyFold sim mi T).2 ≤ (fuzzyFold sim mi T').2 ∧
    (∀ n, fuzzy_match_target sim mi T = some n →
      ∃ n2, fuzzy_match_target sim mi T' = some n2) := by
  have hmono : (fuzzyFold sim mi T).2 ≤ (fuzzyFold sim mi T').2 := by
    rcases fuzzyFold_snd_cases sim mi T (none, 0) with h | ⟨t, hmem, heq, hthr⟩
    · unfold fuzzyFold
      rw [h]
      exact fuzzyFold_snd_ge_init sim mi T' (none, 0)
    · unfold fuzzyFold
      rw [heq]
      exact fuzzyFold_le_of_mem sim mi (hsub t hmem) hthr (none, 0)
  refine ⟨hmono, ?_⟩
  intro n hn
  unfold fuzzy_match_target at hn ⊢
  by_cases hguard : strUpper mi.chip_family = ""
  · rw [if_pos hguard] at hn
    cases hn
  · rw [if_neg hguard] at hn
    rw [if_neg hguard]
    have hinv : ((none : Option String), (0 : ℚ)).1.isSome ↔
        3/5 < ((none : Option String), (0 : ℚ)).2 := by norm_num
    have hT := fuzzyFold_isSome_iff sim mi T (none, 0) hinv
    have hT2 := fuzzyFold_isSome_iff sim mi T' (none, 0) hinv
    have hsomeT : (fuzzyFold sim mi T).1.isSome := by rw [hn]; rfl
    have hgt : 3/5 < (fuzzyFold sim mi T).2 := hT.mp hsomeT
    have hgt2 : 3/5 < (fuzzyFold sim mi T').2 := lt_of_lt_of_le hgt hmono
    have hsomeT2 : (fuzzyFold sim mi T').1.isSome := hT2.mpr hgt2
    exact Option.isSome_iff_exists.mp hsomeT2

/-- The trivial similarity oracle used by the C9 witness. -/
def simZero : String → String → ℚ := fun _ _ => 0

/-- Parsed identity of a NUCLEO-WB55 (`NUCLEO-WB55 with STM32WB55RGV6`). -/
def miWB55 : McuInfo :=
  { chip_family := "STM32WB55", chip_variant := "RGV6", board_name := "NUCLEO-WB55",
    full_description := "NUCLEO-WB55 with STM32WB55RGV6", cpu := "STM32WB55RGV6",
    port := "stm32" }

/-- A small target table containing the matching target. -/
def targetsSmall : List (String × TargetInfo) :=
  [("stm32wb55xg", { vendor := "STMicroelectronics", part_number := "STM32WB55XG" })]

/-- A strictly larger target table. -/
def targetsBig : List (String × TargetInfo) :=
  targetsSmall ++
    [("stm32f429xi", { vendor := "STMicroelectronics", part_number := "STM32F429XI" })]

/-- The C9 witness target scores exactly 1 against the NUCLEO-WB55 identity:
full family match, full part-number match and the stm32 port bonus. -/
theorem scoreTarget_wb55 :
    scoreTarget simZero miWB55 "stm32wb55xg"
      { vendor := "STMicroelectronics", part_number := "STM32WB55XG" } = 1 := by
  simp only [scoreTarget, miWB55]
  rw [if_pos (by decide), if_pos (by decide), if_pos (by decide)]
  norm_num

/-- Closed instance of the C9 theorem: enlarging the table from one to two
targets does not lower the chosen score, and the match survives. -/
theorem fuzzy_match_target_monotone_witness :
    (fuzzyFold simZero miWB55 targetsSmall).2 ≤ (fuzzyFold simZero miWB55 targetsBig).2 ∧
    ∃ n2, fuzzy_match_target simZero miWB55 targetsBig = some n2 := by
  have h := fuzzy_match_target_monotone simZero miWB55 targetsSmall targetsBig (by decide)
  refine ⟨h.1, h.2 "stm32wb55xg" ?_⟩
  unfold fuzzy_match_target
  rw [if_neg (by decide)]
  show (fuzzyStep simZero miWB55 (none, 0) ("stm32wb55xg",
    { vendor := "STMicroelectronics", part_number := "STM32WB55XG" })).1 = some "stm32wb55xg"
  unfold fuzzyStep
  rw [scoreTarget_wb55, if_pos (by norm_num)]

end MpFlash

